import Mathlib

/-!
Verification of the cash-flow forecasting core of Tally & Trace
(`backend/app/services/forecast.py`).

The service operates on Python `datetime` values and `float` amounts.  We
embed `datetime` as a structure of integer fields carrying the invariants
that Python's `datetime` constructor enforces and that the code relies on
(month in `[1, 12]`, day in `[1, days-in-month]`, non-negative time
components; the year bounds `[1, 9999]` are deliberately not imposed so
that month arithmetic stays total).  `float` amounts are modelled as exact
rationals, and Python's `round(x, 2)` as decimal round-half-even to two
places.  Database queries appear as explicit input lists: each function
receives the rows its query would return (the CRUD layer is an external
collaborator in the spec).
-/

/-- Leap-year rule used by Python's `calendar.monthrange`. -/
def isLeap (y : Int) : Prop := y % 4 = 0 ∧ (y % 100 ≠ 0 ∨ y % 400 = 0)

instance (y : Int) : Decidable (isLeap y) := by unfold isLeap; infer_instance

/-- Number of days in the given month, as returned by `monthrange(year, month)[1]`. -/
def daysInMonth (y m : Int) : Int :=
  if m = 2 then (if isLeap y then 29 else 28)
  else if m = 4 ∨ m = 6 ∨ m = 9 ∨ m = 11 then 30
  else 31

theorem daysInMonth_ge : ∀ y m : Int, 28 ≤ daysInMonth y m := by
  intro y m
  unfold daysInMonth
  split_ifs <;> omega

theorem daysInMonth_le : ∀ y m : Int, daysInMonth y m ≤ 31 := by
  intro y m
  unfold daysInMonth
  split_ifs <;> omega

/-- A naive (timezone-free) Python `datetime`.  The proof fields record the
invariants Python's constructor guarantees and which the forecasting code
relies on.  Year bounds are not recorded: month arithmetic is modelled as
total over all years. -/
structure DateTime where
  year : Int
  month : Int
  day : Int
  hour : Int
  minute : Int
  second : Int
  microsecond : Int
  month_ge : 1 ≤ month
  month_le : month ≤ 12
  day_ge : 1 ≤ day
  day_le : day ≤ daysInMonth year month
  hour_nonneg : 0 ≤ hour
  minute_nonneg : 0 ≤ minute
  second_nonneg : 0 ≤ second
  microsecond_nonneg : 0 ≤ microsecond

theorem DateTime.ext_fields : ∀ {a b : DateTime},
    a.year = b.year → a.month = b.month → a.day = b.day → a.hour = b.hour →
    a.minute = b.minute → a.second = b.second → a.microsecond = b.microsecond →
    a = b := by
  intro a b h1 h2 h3 h4 h5 h6 h7
  cases a
  cases b
  simp_all

instance : DecidableEq DateTime := fun a b =>
  if h : a.year = b.year ∧ a.month = b.month ∧ a.day = b.day ∧ a.hour = b.hour ∧
      a.minute = b.minute ∧ a.second = b.second ∧ a.microsecond = b.microsecond then
    .isTrue (DateTime.ext_fields h.1 h.2.1 h.2.2.1 h.2.2.2.1 h.2.2.2.2.1
      h.2.2.2.2.2.1 h.2.2.2.2.2.2)
  else
    .isFalse (fun he => h (by subst he; exact ⟨rfl, rfl, rfl, rfl, rfl, rfl, rfl⟩))

/-- Python `datetime` comparison: lexicographic on
(year, month, day, hour, minute, second, microsecond), strict. -/
def dtLt (a b : DateTime) : Prop :=
  a.year < b.year ∨ (a.year = b.year ∧
    (a.month < b.month ∨ (a.month = b.month ∧
      (a.day < b.day ∨ (a.day = b.day ∧
        (a.hour < b.hour ∨ (a.hour = b.hour ∧
          (a.minute < b.minute ∨ (a.minute = b.minute ∧
            (a.second < b.second ∨ (a.second = b.second ∧
              a.microsecond < b.microsecond)))))))))))

/-- Python `datetime` comparison, non-strict variant. -/
def dtLe (a b : DateTime) : Prop :=
  a.year < b.year ∨ (a.year = b.year ∧
    (a.month < b.month ∨ (a.month = b.month ∧
      (a.day < b.day ∨ (a.day = b.day ∧
        (a.hour < b.hour ∨ (a.hour = b.hour ∧
          (a.minute < b.minute ∨ (a.minute = b.minute ∧
            (a.second < b.second ∨ (a.second = b.second ∧
              a.microsecond ≤ b.microsecond)))))))))))

instance (a b : DateTime) : Decidable (dtLt a b) := by unfold dtLt; infer_instance

instance (a b : DateTime) : Decidable (dtLe a b) := by unfold dtLe; infer_instance

theorem dtLe_of_not_lt {a b : DateTime} (h : ¬ dtLt a b) : dtLe b a := by
  unfold dtLt at h
  unfold dtLe
  omega

theorem not_dtLt_of_dtLe {a b : DateTime} (h : dtLe a b) : ¬ dtLt b a := by
  unfold dtLe at h
  unfold dtLt
  omega

theorem dtLe_trans {a b c : DateTime} (h1 : dtLe a b) (h2 : dtLe b c) : dtLe a c := by
  unfold dtLe at *
  omega

theorem dtLe_refl (a : DateTime) : dtLe a a := by
  unfold dtLe
  omega

theorem dtLt_of_dtLe_of_dtLt {a b c : DateTime} (h1 : dtLe a b) (h2 : dtLt b c) :
    dtLt a c := by
  unfold dtLe at h1
  unfold dtLt at *
  omega

/-- Months-since-epoch linearisation of the (year, month) pair; `_add_months`
acts on it by translation. -/
def monthsSE (d : DateTime) : Int := 12 * d.year + d.month - 1

/-- Embeds `_add_months(dt, months)`: month index arithmetic with Python's floor
division `//` and modulo `%` (for the positive divisor 12 these coincide
with Lean's Int `/` and `%`), day clamped to the target month's length,
time-of-day preserved (`dt.replace(...)`). -/
def addMonths (dt : DateTime) (months : Int) : DateTime where
  year := dt.year + (dt.month - 1 + months) / 12
  month := (dt.month - 1 + months) % 12 + 1
  day := min dt.day
    (daysInMonth (dt.year + (dt.month - 1 + months) / 12)
      ((dt.month - 1 + months) % 12 + 1))
  hour := dt.hour
  minute := dt.minute
  second := dt.second
  microsecond := dt.microsecond
  month_ge := by omega
  month_le := by omega
  day_ge := by
    have h1 := dt.day_ge
    have h2 := daysInMonth_ge (dt.year + (dt.month - 1 + months) / 12)
      ((dt.month - 1 + months) % 12 + 1)
    omega
  day_le := by omega
  hour_nonneg := dt.hour_nonneg
  minute_nonneg := dt.minute_nonneg
  second_nonneg := dt.second_nonneg
  microsecond_nonneg := dt.microsecond_nonneg

theorem addMonths_year_month (dt : DateTime) (n : Int) :
    (addMonths dt n).year = dt.year + (dt.month - 1 + n) / 12 ∧
    (addMonths dt n).month = (dt.month - 1 + n) % 12 + 1 := ⟨rfl, rfl⟩

theorem addMonths_day (dt : DateTime) (n : Int) :
    (addMonths dt n).day =
      min dt.day (daysInMonth (addMonths dt n).year (addMonths dt n).month) := rfl

theorem addMonths_time (dt : DateTime) (n : Int) :
    (addMonths dt n).hour = dt.hour ∧ (addMonths dt n).minute = dt.minute ∧
    (addMonths dt n).second = dt.second ∧
    (addMonths dt n).microsecond = dt.microsecond :=
  ⟨rfl, rfl, rfl, rfl⟩

theorem monthsSE_addMonths (dt : DateTime) (n : Int) :
    monthsSE (addMonths dt n) = monthsSE dt + n := by
  unfold monthsSE
  obtain ⟨hy, hm⟩ := addMonths_year_month dt n
  rw [hy, hm]
  omega

/-- A strictly smaller months-index forces a strictly earlier datetime
(uses the month bounds carried by `DateTime`). -/
theorem dtLt_of_monthsSE_lt {a b : DateTime} (h : monthsSE a < monthsSE b) :
    dtLt a b := by
  unfold monthsSE at h
  have ha1 := a.month_ge
  have ha2 := a.month_le
  have hb1 := b.month_ge
  have hb2 := b.month_le
  unfold dtLt
  omega

theorem monthsSE_le_of_dtLe {a b : DateTime} (h : dtLe a b) :
    monthsSE a ≤ monthsSE b := by
  unfold dtLe at h
  have ha1 := a.month_ge
  have ha2 := a.month_le
  have hb1 := b.month_ge
  have hb2 := b.month_le
  unfold monthsSE
  omega

theorem monthsSE_le_of_dtLt {a b : DateTime} (h : dtLt a b) :
    monthsSE a ≤ monthsSE b := by
  unfold dtLt at h
  have ha1 := a.month_ge
  have ha2 := a.month_le
  have hb1 := b.month_ge
  have hb2 := b.month_le
  unfold monthsSE
  omega

theorem dtLt_addMonths (dt : DateTime) (k : Int) (hk : 1 ≤ k) :
    dtLt dt (addMonths dt k) := by
  apply dtLt_of_monthsSE_lt
  rw [monthsSE_addMonths]
  omega

/-- Modelled from the spec: the recurrence cadence enumeration
(`RecurrenceFrequency`, whose defining module is not part of the forecasting
sources).  The spec fixes the variants `monthly | quarterly | semi_annual |
annual`; the extra `unrecognized` constructor stands for any other value, for
which both cadence helpers take their deliberate fallback branch. -/
inductive RecurrenceFrequency where
  | monthly
  | quarterly
  | semiAnnual
  | annual
  | unrecognized
deriving DecidableEq, Repr

/-- Modelled from the spec: the budget-entry type enumeration
(`BudgetEntryType`), variants `income | expense`. -/
inductive BudgetEntryType where
  | income
  | expense
deriving DecidableEq, Repr

/-- Modelled from the spec: the transaction type enumeration
(`TransactionType`), variants `debit | credit | transfer`. -/
inductive TransactionType where
  | debit
  | credit
  | transfer
deriving DecidableEq, Repr

/-- The `.value` string of a budget-entry type (Python enum value). -/
def BudgetEntryType.value : BudgetEntryType → String
  | .income => "income"
  | .expense => "expense"

/-- The `.value` string of a transaction type (Python enum value). -/
def TransactionType.value : TransactionType → String
  | .debit => "debit"
  | .credit => "credit"
  | .transfer => "transfer"

/-- Month count used by `_next_occurrence`'s cadence dispatch; the final
`return _add_months(current, 1)` is the unrecognized-cadence fallback. -/
def cadenceMonths : RecurrenceFrequency → Int
  | .monthly => 1
  | .quarterly => 3
  | .semiAnnual => 6
  | .annual => 12
  | .unrecognized => 1

theorem cadenceMonths_ge_one (c : RecurrenceFrequency) : 1 ≤ cadenceMonths c := by
  cases c <;> simp [cadenceMonths]

/-- Embeds `_next_occurrence(current, cadence)`. -/
def nextOccurrence (current : DateTime) (cadence : RecurrenceFrequency) : DateTime :=
  addMonths current (cadenceMonths cadence)

/-- The divisor map `divisors.get(cadence, 1)` of `_monthly_equivalent`. -/
def cadenceDivisor : RecurrenceFrequency → ℚ
  | .monthly => 1
  | .quarterly => 3
  | .semiAnnual => 6
  | .annual => 12
  | .unrecognized => 1

/-- Embeds `_monthly_equivalent(amount, cadence)`: normalise any cadence to a monthly
amount.  Python floats are modelled as exact rationals. -/
def monthlyEquivalent (amount : ℚ) (cadence : RecurrenceFrequency) : ℚ :=
  amount / cadenceDivisor cadence

/-- Round-half-even to an integer, the tie-breaking rule of Python's
built-in `round`. -/
def bankersRound (x : ℚ) : Int :=
  if x - ⌊x⌋ < 1 / 2 then ⌊x⌋
  else if x - ⌊x⌋ > 1 / 2 then ⌊x⌋ + 1
  else if ⌊x⌋ % 2 = 0 then ⌊x⌋ else ⌊x⌋ + 1

/-- Python's `round(x, 2)` on amounts, modelled as decimal
round-half-even to two places over exact rationals. -/
def round2 (x : ℚ) : ℚ := (bankersRound (100 * x) : ℚ) / 100

/-- An active account row as returned by `get_account_balances` (only the
balance participates in the forecast). -/
structure Account where
  id : Int
  balance : ℚ
deriving DecidableEq, Repr

/-- An active budget-entry row (recurring income/expense) as returned by the
projector's `BudgetEntry` query.  `next_occurrence` is the stored anchor,
already timezone-stripped (the code's `replace(tzinfo=None)` normalisation is
the identity on our naive datetimes). -/
structure BudgetEntry where
  id : Int
  name : String
  entry_type : BudgetEntryType
  amount : ℚ
  cadence : RecurrenceFrequency
  next_occurrence : DateTime
deriving DecidableEq

/-- A transaction row (forecast-relevant subset).  `transaction_date` is
timezone-stripped as in the code. -/
structure Transaction where
  id : Int
  description : Option String
  amount : ℚ
  transaction_type : TransactionType
  transaction_date : DateTime
  is_posted : Bool
deriving DecidableEq

/-- Zero-padded decimal rendering of a non-negative integer, for ISO dates. -/
def padNum (width : Nat) (n : Int) : String :=
  String.mk (List.replicate (width - (toString n.toNat).length) '0') ++ toString n.toNat

/-- Python `datetime.isoformat()` on a naive datetime: `YYYY-MM-DDTHH:MM:SS`
plus a `.ffffff` microsecond suffix only when it is non-zero. -/
def isoformat (d : DateTime) : String :=
  padNum 4 d.year ++ "-" ++ padNum 2 d.month ++ "-" ++ padNum 2 d.day ++ "T" ++
    padNum 2 d.hour ++ ":" ++ padNum 2 d.minute ++ ":" ++ padNum 2 d.second ++
    (if d.microsecond = 0 then "" else "." ++ padNum 6 d.microsecond)

/-- English month name, as used by `strftime("%B %Y")`. -/
def monthName (m : Int) : String :=
  if m = 1 then "January" else if m = 2 then "February" else if m = 3 then "March"
  else if m = 4 then "April" else if m = 5 then "May" else if m = 6 then "June"
  else if m = 7 then "July" else if m = 8 then "August" else if m = 9 then "September"
  else if m = 10 then "October" else if m = 11 then "November" else "December"

/-- Embeds `period_start.strftime("%B %Y")`. -/
def periodLabel (d : DateTime) : String := monthName d.month ++ " " ++ toString d.year

/-- Embeds `now.replace(day=1, hour=0, minute=0, second=0, microsecond=0)`: start of
the reference month. -/
def startOfMonth (now : DateTime) : DateTime where
  year := now.year
  month := now.month
  day := 1
  hour := 0
  minute := 0
  second := 0
  microsecond := 0
  month_ge := now.month_ge
  month_le := now.month_le
  day_ge := le_refl 1
  day_le := by have := daysInMonth_ge now.year now.month; omega
  hour_nonneg := le_refl 0
  minute_nonneg := le_refl 0
  second_nonneg := le_refl 0
  microsecond_nonneg := le_refl 0

/-- The projector's catch-up loop:
`while occ < period_start: occ = _next_occurrence(occ, cadence)`.
It terminates because each step advances the month index by at least one. -/
def catchUp (cadence : RecurrenceFrequency) (periodStart occ : DateTime) : DateTime :=
  if dtLt occ periodStart then
    catchUp cadence periodStart (nextOccurrence occ cadence)
  else occ
termination_by (monthsSE periodStart + 1 - monthsSE occ).toNat
decreasing_by
  rename_i h
  have h1 := monthsSE_le_of_dtLt h
  have h2 := monthsSE_addMonths occ (cadenceMonths cadence)
  have h3 := cadenceMonths_ge_one cadence
  unfold nextOccurrence
  omega

/-- The projector's in-period accumulation loop for one budget entry:
`while period_start <= occ < period_end: income/expenses += amount; advance`.
Returns this entry's total (income, expenses) contribution for the period. -/
def accumLoop (entryType : BudgetEntryType) (amount : ℚ)
    (cadence : RecurrenceFrequency) (periodStart periodEnd occ : DateTime) : ℚ × ℚ :=
  if dtLe periodStart occ ∧ dtLt occ periodEnd then
    let rest := accumLoop entryType amount cadence periodStart periodEnd
      (nextOccurrence occ cadence)
    match entryType with
    | .income => (amount + rest.1, rest.2)
    | .expense => (rest.1, amount + rest.2)
  else (0, 0)
termination_by (monthsSE periodEnd + 1 - monthsSE occ).toNat
decreasing_by
  rename_i h
  have h1 := monthsSE_le_of_dtLt h.2
  have h2 := monthsSE_addMonths occ (cadenceMonths cadence)
  have h3 := cadenceMonths_ge_one cadence
  unfold nextOccurrence
  omega

/-- One budget entry's contribution to a period: catch the stored anchor up
to the window, then accumulate the occurrences that fall inside it. -/
def entryPeriodContrib (e : BudgetEntry) (periodStart periodEnd : DateTime) : ℚ × ℚ :=
  accumLoop e.entry_type e.amount e.cadence periodStart periodEnd
    (catchUp e.cadence periodStart e.next_occurrence)

/-- The projector's per-period (income, expenses) totals over all entries. -/
def periodBudget (entries : List BudgetEntry) (periodStart periodEnd : DateTime) :
    ℚ × ℚ :=
  entries.foldl
    (fun acc e =>
      ((entryPeriodContrib e periodStart periodEnd).1 + acc.1,
        (entryPeriodContrib e periodStart periodEnd).2 + acc.2))
    (0, 0)

/-- The projector's per-period unposted-transaction accumulator: debits add,
credits subtract, transfers fall through the `if/elif` untouched. -/
def periodUnposted (txns : List Transaction) (periodStart periodEnd : DateTime) : ℚ :=
  txns.foldl
    (fun u t =>
      if dtLe periodStart t.transaction_date ∧ dtLt t.transaction_date periodEnd then
        match t.transaction_type with
        | .debit => u + t.amount
        | .credit => u - t.amount
        | .transfer => u
      else u)
    0

/-- One period record of the projection timeline. -/
structure PeriodRecord where
  period_label : String
  period_start : String
  period_end : String
  opening_balance : ℚ
  income : ℚ
  expenses : ℚ
  unposted_expenses : ℚ
  net : ℚ
  closing_balance : ℚ
deriving DecidableEq

/-- The record appended for one period, given the carried opening balance and
period start. -/
def mkPeriodRecord (entries : List BudgetEntry) (txns : List Transaction)
    (opening : ℚ) (periodStart : DateTime) : PeriodRecord :=
  { period_label := periodLabel periodStart
    period_start := isoformat periodStart
    period_end := isoformat (addMonths periodStart 1)
    opening_balance := round2 opening
    income := round2 (periodBudget entries periodStart (addMonths periodStart 1)).1
    expenses := round2 (periodBudget entries periodStart (addMonths periodStart 1)).2
    unposted_expenses := round2 (periodUnposted txns periodStart (addMonths periodStart 1))
    net := round2 ((periodBudget entries periodStart (addMonths periodStart 1)).1 -
      (periodBudget entries periodStart (addMonths periodStart 1)).2 -
      periodUnposted txns periodStart (addMonths periodStart 1))
    closing_balance := round2 (opening +
      ((periodBudget entries periodStart (addMonths periodStart 1)).1 -
        (periodBudget entries periodStart (addMonths periodStart 1)).2 -
        periodUnposted txns periodStart (addMonths periodStart 1))) }

/-- The projector's `for _ in range(months)` loop, carrying the running
(unrounded) opening balance and the period start across iterations. -/
def projectLoop (entries : List BudgetEntry) (txns : List Transaction) :
    Nat → ℚ → DateTime → List PeriodRecord
  | 0, _, _ => []
  | n + 1, opening, periodStart =>
    mkPeriodRecord entries txns opening periodStart ::
      projectLoop entries txns n
        (opening +
          ((periodBudget entries periodStart (addMonths periodStart 1)).1 -
            (periodBudget entries periodStart (addMonths periodStart 1)).2 -
            periodUnposted txns periodStart (addMonths periodStart 1)))
        (addMonths periodStart 1)

/-- Embeds `sum(a.balance for a in accounts)`. -/
def openingBalance (accounts : List Account) : ℚ :=
  accounts.foldl (fun s a => s + a.balance) 0

/-- Embeds `project_cashflow(db, user_id, entity_id, months, reference)`.  The three
input lists stand for the user's (entity-scoped) rows: active accounts,
active budget entries, and transactions; the `is_posted == False` filter of
the transaction query is applied here. -/
def project_cashflow (accounts : List Account) (entries : List BudgetEntry)
    (txns : List Transaction) (months : Nat) (reference : DateTime) :
    List PeriodRecord :=
  projectLoop entries (txns.filter fun t => !t.is_posted) months
    (openingBalance accounts) (startOfMonth reference)

/-- Start of the i-th projected period, counting from a given first period. -/
def psFrom (periodStart : DateTime) (i : Nat) : DateTime :=
  (fun d => addMonths d 1)^[i] periodStart

/-- Unrounded net of the i-th projected period. -/
def netFrom (entries : List BudgetEntry) (txns : List Transaction)
    (periodStart : DateTime) (i : Nat) : ℚ :=
  (periodBudget entries (psFrom periodStart i) (addMonths (psFrom periodStart i) 1)).1 -
    (periodBudget entries (psFrom periodStart i) (addMonths (psFrom periodStart i) 1)).2 -
    periodUnposted txns (psFrom periodStart i) (addMonths (psFrom periodStart i) 1)

/-- Unrounded opening balance carried into the i-th projected period. -/
def openFrom (entries : List BudgetEntry) (txns : List Transaction)
    (opening : ℚ) (periodStart : DateTime) : Nat → ℚ
  | 0 => opening
  | i + 1 =>
    openFrom entries txns opening periodStart i + netFrom entries txns periodStart i

theorem psFrom_succ (periodStart : DateTime) (i : Nat) :
    psFrom periodStart (i + 1) = psFrom (addMonths periodStart 1) i := by
  unfold psFrom
  exact Function.iterate_succ_apply (fun d => addMonths d 1) i periodStart

theorem psFrom_succ_right (periodStart : DateTime) (i : Nat) :
    psFrom periodStart (i + 1) = addMonths (psFrom periodStart i) 1 := by
  unfold psFrom
  exact Function.iterate_succ_apply' (fun d => addMonths d 1) i periodStart

theorem netFrom_succ (entries : List BudgetEntry) (txns : List Transaction)
    (periodStart : DateTime) (i : Nat) :
    netFrom entries txns periodStart (i + 1) =
      netFrom entries txns (addMonths periodStart 1) i := by
  unfold netFrom
  rw [psFrom_succ]

theorem openFrom_succ_shift (entries : List BudgetEntry) (txns : List Transaction)
    (opening : ℚ) (periodStart : DateTime) (i : Nat) :
    openFrom entries txns opening periodStart (i + 1) =
      openFrom entries txns (opening + netFrom entries txns periodStart 0)
        (addMonths periodStart 1) i := by
  induction i with
  | zero =>
    simp [openFrom]
  | succ i ih =>
    show openFrom entries txns opening periodStart (i + 1) +
        netFrom entries txns periodStart (i + 1) = _
    rw [ih, netFrom_succ]
    rfl

theorem projectLoop_length (entries : List BudgetEntry) (txns : List Transaction) :
    ∀ (n : Nat) (opening : ℚ) (periodStart : DateTime),
      (projectLoop entries txns n opening periodStart).length = n := by
  intro n
  induction n with
  | zero => intro opening periodStart; rfl
  | succ n ih =>
    intro opening periodStart
    show (mkPeriodRecord entries txns opening periodStart :: _).length = n + 1
    rw [List.length_cons, ih]

theorem projectLoop_get (entries : List BudgetEntry) (txns : List Transaction) :
    ∀ (i n : Nat) (opening : ℚ) (periodStart : DateTime)
      (h : i < (projectLoop entries txns n opening periodStart).length),
      (projectLoop entries txns n opening periodStart).get ⟨i, h⟩ =
        mkPeriodRecord entries txns (openFrom entries txns opening periodStart i)
          (psFrom periodStart i) := by
  intro i
  induction i with
  | zero =>
    intro n opening periodStart h
    match n with
    | 0 => simp [projectLoop] at h
    | m + 1 => rfl
  | succ i ih =>
    intro n opening periodStart h
    match n with
    | 0 => simp [projectLoop] at h
    | m + 1 =>
      have h' : i < (projectLoop entries txns m
          (opening + netFrom entries txns periodStart 0)
          (addMonths periodStart 1)).length := by
        rw [projectLoop_length]
        rw [projectLoop_length] at h
        omega
      have step : (projectLoop entries txns (m + 1) opening periodStart).get ⟨i + 1, h⟩ =
          (projectLoop entries txns m (opening + netFrom entries txns periodStart 0)
            (addMonths periodStart 1)).get ⟨i, h'⟩ := rfl
      rw [step, ih]
      rw [openFrom_succ_shift, psFrom_succ]

/-- Spec-side signed contribution of one unposted transaction to the
period's net-outflow figure: a debit adds its amount, a credit subtracts
its amount, a transfer contributes nothing. -/
def signedAmount (t : Transaction) : ℚ :=
  match t.transaction_type with
  | .debit => t.amount
  | .credit => -t.amount
  | .transfer => 0

/-- Spec-side description of the per-period `unposted_expenses` figure:
the signed sum over the transactions dated in `[period_start, period_end)`. -/
def unpostedSpec (txns : List Transaction) (periodStart periodEnd : DateTime) : ℚ :=
  ((txns.filter fun t =>
      decide (dtLe periodStart t.transaction_date ∧ dtLt t.transaction_date periodEnd)).map
    signedAmount).sum

theorem unpostedSpec_cons (t : Transaction) (rest : List Transaction)
    (periodStart periodEnd : DateTime) :
    unpostedSpec (t :: rest) periodStart periodEnd =
      (if dtLe periodStart t.transaction_date ∧ dtLt t.transaction_date periodEnd then
        signedAmount t else 0) + unpostedSpec rest periodStart periodEnd := by
  unfold unpostedSpec
  rw [List.filter_cons]
  by_cases hw : dtLe periodStart t.transaction_date ∧ dtLt t.transaction_date periodEnd
  · rw [if_pos hw]
    simp [hw]
  · rw [if_neg hw]
    simp [hw]

theorem periodUnposted_foldl (periodStart periodEnd : DateTime) :
    ∀ (txns : List Transaction) (u : ℚ),
      txns.foldl
        (fun u t =>
          if dtLe periodStart t.transaction_date ∧ dtLt t.transaction_date periodEnd then
            match t.transaction_type with
            | .debit => u + t.amount
            | .credit => u - t.amount
            | .transfer => u
          else u)
        u = u + unpostedSpec txns periodStart periodEnd := by
  intro txns
  induction txns with
  | nil => intro u; simp [unpostedSpec]
  | cons t rest ih =>
    intro u
    rw [List.foldl_cons, ih, unpostedSpec_cons]
    show (if dtLe periodStart t.transaction_date ∧ dtLt t.transaction_date periodEnd then
        match t.transaction_type with
        | .debit => u + t.amount
        | .credit => u - t.amount
        | .transfer => u
      else u) + unpostedSpec rest periodStart periodEnd = _
    by_cases hw : dtLe periodStart t.transaction_date ∧ dtLt t.transaction_date periodEnd
    · rw [if_pos hw, if_pos hw]
      cases htype : t.transaction_type <;> simp only [htype, signedAmount] <;> ring
    · rw [if_neg hw, if_neg hw]
      ring

theorem periodUnposted_eq_unpostedSpec (txns : List Transaction)
    (periodStart periodEnd : DateTime) :
    periodUnposted txns periodStart periodEnd = unpostedSpec txns periodStart periodEnd := by
  unfold periodUnposted
  rw [periodUnposted_foldl]
  ring

/-- C1: in `project_cashflow`, every period's `unposted_expenses` is the
signed sum over the unposted transactions dated in
`[period_start, period_end)` — debit adds its amount, credit subtracts it,
transfer contributes nothing — and the period's net is
`income - expenses - unposted_expenses` while its closing balance is
`opening + net` (each field stored rounded to 2 decimals). -/
theorem project_cashflow_unposted_net_closing
    (accounts : List Account) (entries : List BudgetEntry) (txns : List Transaction)
    (months : Nat) (reference : DateTime) (i : Nat)
    (h : i < (project_cashflow accounts entries txns months reference).length) :
    ((project_cashflow accounts entries txns months reference).get ⟨i, h⟩).unposted_expenses =
      round2 (unpostedSpec (txns.filter fun t => !t.is_posted)
        (psFrom (startOfMonth reference) i)
        (addMonths (psFrom (startOfMonth reference) i) 1)) ∧
    ((project_cashflow accounts entries txns months reference).get ⟨i, h⟩).net =
      round2
        ((periodBudget entries (psFrom (startOfMonth reference) i)
            (addMonths (psFrom (startOfMonth reference) i) 1)).1 -
          (periodBudget entries (psFrom (startOfMonth reference) i)
            (addMonths (psFrom (startOfMonth reference) i) 1)).2 -
          unpostedSpec (txns.filter fun t => !t.is_posted)
            (psFrom (startOfMonth reference) i)
            (addMonths (psFrom (startOfMonth reference) i) 1)) ∧
    ((project_cashflow accounts entries txns months reference).get ⟨i, h⟩).opening_balance =
      round2 (openFrom entries (txns.filter fun t => !t.is_posted)
        (openingBalance accounts) (startOfMonth reference) i) ∧
    ((project_cashflow accounts entries txns months reference).get ⟨i, h⟩).closing_balance =
      round2 (openFrom entries (txns.filter fun t => !t.is_posted)
          (openingBalance accounts) (startOfMonth reference) i +
        ((periodBudget entries (psFrom (startOfMonth reference) i)
            (addMonths (psFrom (startOfMonth reference) i) 1)).1 -
          (periodBudget entries (psFrom (startOfMonth reference) i)
            (addMonths (psFrom (startOfMonth reference) i) 1)).2 -
          unpostedSpec (txns.filter fun t => !t.is_posted)
            (psFrom (startOfMonth reference) i)
            (addMonths (psFrom (startOfMonth reference) i) 1))) := by
  unfold project_cashflow at h ⊢
  rw [projectLoop_get]
  unfold mkPeriodRecord
  refine ⟨?_, ?_, ?_, ?_⟩ <;>
    first
      | rfl
      | simp only [periodUnposted_eq_unpostedSpec]

/-- C2: `project_cashflow` returns exactly `months` records, and consecutive
records chain: the later record's `period_start` is the earlier record's
`period_end`, and the later record's `opening_balance` is the earlier
record's `closing_balance` (both the 2-decimal rounding of the same carried
running balance). -/
theorem project_cashflow_length_chain
    (accounts : List Account) (entries : List BudgetEntry) (txns : List Transaction)
    (months : Nat) (reference : DateTime) :
    (project_cashflow accounts entries txns months reference).length = months ∧
    ∀ (i : Nat) (h1 : i < (project_cashflow accounts entries txns months reference).length)
      (h2 : i + 1 < (project_cashflow accounts entries txns months reference).length),
      ((project_cashflow accounts entries txns months reference).get ⟨i + 1, h2⟩).period_start =
        ((project_cashflow accounts entries txns months reference).get ⟨i, h1⟩).period_end ∧
      ((project_cashflow accounts entries txns months reference).get ⟨i + 1, h2⟩).opening_balance =
        ((project_cashflow accounts entries txns months reference).get ⟨i, h1⟩).closing_balance := by
  constructor
  · unfold project_cashflow
    exact projectLoop_length _ _ _ _ _
  · intro i h1 h2
    unfold project_cashflow at h1 h2 ⊢
    rw [projectLoop_get, projectLoop_get]
    constructor
    · show isoformat (psFrom (startOfMonth reference) (i + 1)) =
        isoformat (addMonths (psFrom (startOfMonth reference) i) 1)
      rw [psFrom_succ_right]
    · rfl

/-- Concrete reference timestamp 2025-03-15 10:30:00 for witnesses. -/
def sampleRef : DateTime :=
  ⟨2025, 3, 15, 10, 30, 0, 0, by decide, by decide, by decide, by decide,
    by decide, by decide, by decide, by decide⟩

/-- Concrete unposted debit transaction dated 2025-03-20 for witnesses. -/
def sampleTxn : Transaction :=
  ⟨1, none, 50, .debit,
    ⟨2025, 3, 20, 0, 0, 0, 0, by decide, by decide, by decide, by decide,
      by decide, by decide, by decide, by decide⟩, false⟩

theorem project_cashflow_unposted_net_closing_witness :
    0 < (project_cashflow [] [] [sampleTxn] 1 sampleRef).length ∧
    ((project_cashflow [] [] [sampleTxn] 1 sampleRef).get ⟨0, by decide⟩).unposted_expenses =
      round2 (unpostedSpec ([sampleTxn].filter fun t => !t.is_posted)
        (psFrom (startOfMonth sampleRef) 0)
        (addMonths (psFrom (startOfMonth sampleRef) 0) 1)) :=
  ⟨by decide,
    (project_cashflow_unposted_net_closing [] [] [sampleTxn] 1 sampleRef 0 (by decide)).1⟩

theorem project_cashflow_length_chain_witness :
    (project_cashflow [] [] [] 2 sampleRef).length = 2 ∧
    (((project_cashflow [] [] [] 2 sampleRef).get ⟨1, by decide⟩).period_start =
        ((project_cashflow [] [] [] 2 sampleRef).get ⟨0, by decide⟩).period_end ∧
      ((project_cashflow [] [] [] 2 sampleRef).get ⟨1, by decide⟩).opening_balance =
        ((project_cashflow [] [] [] 2 sampleRef).get ⟨0, by decide⟩).closing_balance) :=
  ⟨(project_cashflow_length_chain [] [] [] 2 sampleRef).1,
    (project_cashflow_length_chain [] [] [] 2 sampleRef).2 0 (by decide) (by decide)⟩

/-- C5: `_add_months` lands exactly `n` calendar months later — the
(year, month) pair's month index is translated by `n` — with the same
day-of-month whenever that day exists in the target month and the last
valid day of the target month otherwise, and with the time-of-day
components unchanged. -/
theorem addMonths_calendar_spec (dt : DateTime) (n : Int) :
    monthsSE (addMonths dt n) = monthsSE dt + n ∧
    (addMonths dt n).day =
      (if dt.day ≤ daysInMonth (addMonths dt n).year (addMonths dt n).month
        then dt.day
        else daysInMonth (addMonths dt n).year (addMonths dt n).month) ∧
    (addMonths dt n).hour = dt.hour ∧ (addMonths dt n).minute = dt.minute ∧
    (addMonths dt n).second = dt.second ∧
    (addMonths dt n).microsecond = dt.microsecond := by
  refine ⟨monthsSE_addMonths dt n, ?_, rfl, rfl, rfl, rfl⟩
  rw [addMonths_day, min_def]

theorem eq_year_month_of_monthsSE_eq {a b : DateTime} (h : monthsSE a = monthsSE b) :
    a.year = b.year ∧ a.month = b.month := by
  unfold monthsSE at h
  have ha1 := a.month_ge
  have ha2 := a.month_le
  have hb1 := b.month_ge
  have hb2 := b.month_le
  omega

/-- Day number of a civil date (the standard days-from-civil computation);
differences of this measure count calendar days. -/
def toOrdinal (d : DateTime) : Int :=
  let y : Int := if d.month ≤ 2 then d.year - 1 else d.year
  let era : Int := y / 400
  let yoe : Int := y - era * 400
  let mp : Int := (d.month + 9) % 12
  let doy : Int := (153 * mp + 2) / 5 + d.day - 1
  let doe : Int := yoe * 365 + yoe / 4 - yoe / 100 + doy
  era * 146097 + doe - 719468

/-- Microsecond linearisation of a datetime: day ordinal scaled to
microseconds plus the time of day. -/
def totalMicros (d : DateTime) : Int :=
  toOrdinal d * 86400000000 +
    ((d.hour * 60 + d.minute) * 60 + d.second) * 1000000 + d.microsecond

/-- Holds when `a` lies within `n` days of `b`. -/
def withinDays (a b : DateTime) (n : Int) : Prop :=
  |totalMicros a - totalMicros b| ≤ n * 86400000000

instance (a b : DateTime) (n : Int) : Decidable (withinDays a b n) := by
  unfold withinDays
  infer_instance

theorem toOrdinal_sub_of_same_month {a b : DateTime} (hy : a.year = b.year)
    (hm : a.month = b.month) : toOrdinal a - toOrdinal b = a.day - b.day := by
  simp only [toOrdinal]
  rw [hy, hm]
  ring

/-- Concrete month-end timestamp 2025-01-31 00:00:00. -/
def jan31 : DateTime :=
  ⟨2025, 1, 31, 0, 0, 0, 0, by decide, by decide, by decide, by decide,
    by decide, by decide, by decide, by decide⟩

/-- Concrete timestamp 2025-01-28 00:00:00. -/
def jan28 : DateTime :=
  ⟨2025, 1, 28, 0, 0, 0, 0, by decide, by decide, by decide, by decide,
    by decide, by decide, by decide, by decide⟩

/-- C4 as stated is false: taking 2025-01-31 one month forward and one month
back lands on 2025-01-28, which is three days — not within one day — from
the original timestamp. -/
theorem addMonths_roundtrip_not_within_one_day :
    addMonths (addMonths jan31 1) (-1) = jan28 ∧
    ¬ withinDays (addMonths (addMonths jan31 1) (-1)) jan31 1 := by
  constructor
  · decide
  · decide

/-- C4 amended: for every timestamp and month count, the round trip
`add_months(add_months(T, m), -m)` returns the same year, month and
time-of-day; only the day can move, backwards by at most three days
(month-end clamping), so the result is within three days of `T`. -/
theorem addMonths_roundtrip_within_three_days (dt : DateTime) (m : Int) :
    (addMonths (addMonths dt m) (-m)).year = dt.year ∧
    (addMonths (addMonths dt m) (-m)).month = dt.month ∧
    (addMonths (addMonths dt m) (-m)).day ≤ dt.day ∧
    dt.day - (addMonths (addMonths dt m) (-m)).day ≤ 3 ∧
    (addMonths (addMonths dt m) (-m)).hour = dt.hour ∧
    (addMonths (addMonths dt m) (-m)).minute = dt.minute ∧
    (addMonths (addMonths dt m) (-m)).second = dt.second ∧
    (addMonths (addMonths dt m) (-m)).microsecond = dt.microsecond ∧
    withinDays (addMonths (addMonths dt m) (-m)) dt 3 := by
  have hse : monthsSE (addMonths (addMonths dt m) (-m)) = monthsSE dt := by
    rw [monthsSE_addMonths, monthsSE_addMonths]
    ring
  obtain ⟨hy, hm⟩ := eq_year_month_of_monthsSE_eq hse
  have hd1 : (addMonths (addMonths dt m) (-m)).day =
      min (addMonths dt m).day
        (daysInMonth (addMonths (addMonths dt m) (-m)).year
          (addMonths (addMonths dt m) (-m)).month) := addMonths_day _ _
  have hd2 : (addMonths dt m).day =
      min dt.day (daysInMonth (addMonths dt m).year (addMonths dt m).month) :=
    addMonths_day _ _
  rw [hy, hm] at hd1
  have hge := daysInMonth_ge (addMonths dt m).year (addMonths dt m).month
  have hle := daysInMonth_le dt.year dt.month
  have hdtle := dt.day_le
  have hday1 : (addMonths (addMonths dt m) (-m)).day ≤ dt.day := by omega
  have hday2 : dt.day - (addMonths (addMonths dt m) (-m)).day ≤ 3 := by omega
  refine ⟨hy, hm, hday1, hday2, rfl, rfl, rfl, rfl, ?_⟩
  have hord : toOrdinal (addMonths (addMonths dt m) (-m)) - toOrdinal dt =
      (addMonths (addMonths dt m) (-m)).day - dt.day :=
    toOrdinal_sub_of_same_month hy hm
  unfold withinDays totalMicros
  have ht1 : (addMonths (addMonths dt m) (-m)).hour = dt.hour := rfl
  have ht2 : (addMonths (addMonths dt m) (-m)).minute = dt.minute := rfl
  have ht3 : (addMonths (addMonths dt m) (-m)).second = dt.second := rfl
  have ht4 : (addMonths (addMonths dt m) (-m)).microsecond = dt.microsecond := rfl
  rw [ht1, ht2, ht3, ht4, abs_le]
  constructor <;> omega

/-- If the period starts on the first of a month at midnight, then advancing
any occurrence at or after the period start by any cadence (at least one
calendar month) lands at or beyond the period's end. -/
theorem period_end_le_next {ps occ : DateTime} (c : RecurrenceFrequency)
    (hd : ps.day = 1) (hh : ps.hour = 0) (hmi : ps.minute = 0)
    (hs : ps.second = 0) (hus : ps.microsecond = 0)
    (h1 : dtLe ps occ) :
    dtLe (addMonths ps 1) (nextOccurrence occ c) := by
  have hms1 := monthsSE_le_of_dtLe h1
  have hms2 := monthsSE_addMonths ps 1
  have hms3 := monthsSE_addMonths occ (cadenceMonths c)
  have hk := cadenceMonths_ge_one c
  have hped := addMonths_day ps 1
  have hgdim := daysInMonth_ge (addMonths ps 1).year (addMonths ps 1).month
  have hpe1 : (addMonths ps 1).hour = ps.hour := rfl
  have hpe2 : (addMonths ps 1).minute = ps.minute := rfl
  have hpe3 : (addMonths ps 1).second = ps.second := rfl
  have hpe4 : (addMonths ps 1).microsecond = ps.microsecond := rfl
  have hnd := (nextOccurrence occ c).day_ge
  have hn1 := (nextOccurrence occ c).hour_nonneg
  have hn2 := (nextOccurrence occ c).minute_nonneg
  have hn3 := (nextOccurrence occ c).second_nonneg
  have hn4 := (nextOccurrence occ c).microsecond_nonneg
  have hm1 := (addMonths ps 1).month_ge
  have hm2 := (addMonths ps 1).month_le
  have hm3 := (nextOccurrence occ c).month_ge
  have hm4 := (nextOccurrence occ c).month_le
  unfold nextOccurrence at *
  unfold monthsSE at hms1 hms2 hms3
  unfold dtLe
  omega

theorem psFrom_startOfMonth_shape (reference : DateTime) (i : Nat) :
    (psFrom (startOfMonth reference) i).day = 1 ∧
    (psFrom (startOfMonth reference) i).hour = 0 ∧
    (psFrom (startOfMonth reference) i).minute = 0 ∧
    (psFrom (startOfMonth reference) i).second = 0 ∧
    (psFrom (startOfMonth reference) i).microsecond = 0 := by
  induction i with
  | zero => exact ⟨rfl, rfl, rfl, rfl, rfl⟩
  | succ i ih =>
    rw [psFrom_succ_right]
    refine ⟨?_, ih.2.1, ih.2.2.1, ih.2.2.2.1, ih.2.2.2.2⟩
    have hd := addMonths_day (psFrom (startOfMonth reference) i) 1
    have hg := daysInMonth_ge (addMonths (psFrom (startOfMonth reference) i) 1).year
      (addMonths (psFrom (startOfMonth reference) i) 1).month
    omega

/-- Under a first-of-month midnight period start, the in-period accumulation
loop runs at most one iteration: the starting occurrence fires if and only
if it lies in `[period_start, period_end)`, and its successor is already at
or beyond the period end. -/
theorem accumLoop_at_most_once (t : BudgetEntryType) (amt : ℚ)
    (c : RecurrenceFrequency) {ps : DateTime}
    (hd : ps.day = 1) (hh : ps.hour = 0) (hmi : ps.minute = 0)
    (hs : ps.second = 0) (hus : ps.microsecond = 0) (occ : DateTime) :
    accumLoop t amt c ps (addMonths ps 1) occ =
      if dtLe ps occ ∧ dtLt occ (addMonths ps 1) then
        (match t with
          | .income => (amt, 0)
          | .expense => (0, amt))
      else (0, 0) := by
  rw [accumLoop.eq_def]
  by_cases hg : dtLe ps occ ∧ dtLt occ (addMonths ps 1)
  · rw [if_pos hg, if_pos hg]
    have hnext := period_end_le_next c hd hh hmi hs hus hg.1
    have hstop : ¬ (dtLe ps (nextOccurrence occ c) ∧
        dtLt (nextOccurrence occ c) (addMonths ps 1)) :=
      fun hcon => not_dtLt_of_dtLe hnext hcon.2
    rw [accumLoop.eq_def, if_neg hstop]
    cases t <;> simp
  · rw [if_neg hg, if_neg hg]

/-- C3: in every emitted period of the projection, each budget entry's
amount is accumulated at most once — its per-period contribution is either
nothing, or a single `amount` added to income (for income entries) or to
expenses (for all other entries) — for every cadence value including the
unrecognized-cadence fallback, because the occurrence walk advances by at
least one calendar month while periods are exactly one month long. -/
theorem entry_fires_at_most_once_per_period
    (reference : DateTime) (i : Nat) (e : BudgetEntry) :
    entryPeriodContrib e (psFrom (startOfMonth reference) i)
        (addMonths (psFrom (startOfMonth reference) i) 1) = (0, 0) ∨
    (e.entry_type = .income ∧
      entryPeriodContrib e (psFrom (startOfMonth reference) i)
        (addMonths (psFrom (startOfMonth reference) i) 1) = (e.amount, 0)) ∨
    (e.entry_type = .expense ∧
      entryPeriodContrib e (psFrom (startOfMonth reference) i)
        (addMonths (psFrom (startOfMonth reference) i) 1) = (0, e.amount)) := by
  obtain ⟨hd, hh, hmi, hs, hus⟩ := psFrom_startOfMonth_shape reference i
  unfold entryPeriodContrib
  rw [accumLoop_at_most_once e.entry_type e.amount e.cadence hd hh hmi hs hus]
  by_cases hg : dtLe (psFrom (startOfMonth reference) i)
      (catchUp e.cadence (psFrom (startOfMonth reference) i) e.next_occurrence) ∧
      dtLt (catchUp e.cadence (psFrom (startOfMonth reference) i) e.next_occurrence)
        (addMonths (psFrom (startOfMonth reference) i) 1)
  · rw [if_pos hg]
    cases htype : e.entry_type
    · right; left; exact ⟨rfl, rfl⟩
    · right; right; exact ⟨rfl, rfl⟩
  · left
    rw [if_neg hg]

/-- The result record of `get_disposable_income`. -/
structure DisposableIncome where
  monthly_income : ℚ
  monthly_expenses : ℚ
  monthly_disposable : ℚ
deriving DecidableEq

/-- The `monthly_income`/`monthly_expenses` accumulation loop of
`get_disposable_income` over the active budget entries. -/
def disposableTotals (entries : List BudgetEntry) : ℚ × ℚ :=
  entries.foldl
    (fun acc e =>
      match e.entry_type with
      | .income => (acc.1 + monthlyEquivalent e.amount e.cadence, acc.2)
      | .expense => (acc.1, acc.2 + monthlyEquivalent e.amount e.cadence))
    (0, 0)

/-- Embeds `get_disposable_income(db, user_id, entity_id)` over the user's active
budget entries. -/
def get_disposable_income (entries : List BudgetEntry) : DisposableIncome where
  monthly_income := round2 (disposableTotals entries).1
  monthly_expenses := round2 (disposableTotals entries).2
  monthly_disposable :=
    round2 ((disposableTotals entries).1 - (disposableTotals entries).2)

/-- Spec-side cadence-normalised monthly total of the income entries. -/
def incomeMonthlySpec (entries : List BudgetEntry) : ℚ :=
  ((entries.filter fun e => decide (e.entry_type = .income)).map
    (fun e => monthlyEquivalent e.amount e.cadence)).sum

/-- Spec-side cadence-normalised monthly total of the remaining (non-income)
entries. -/
def expenseMonthlySpec (entries : List BudgetEntry) : ℚ :=
  ((entries.filter fun e => decide (¬ e.entry_type = .income)).map
    (fun e => monthlyEquivalent e.amount e.cadence)).sum

theorem incomeMonthlySpec_cons (e : BudgetEntry) (rest : List BudgetEntry) :
    incomeMonthlySpec (e :: rest) =
      (if e.entry_type = .income then monthlyEquivalent e.amount e.cadence else 0) +
        incomeMonthlySpec rest := by
  unfold incomeMonthlySpec
  rw [List.filter_cons]
  by_cases h : e.entry_type = .income
  · rw [if_pos h]
    simp [h]
  · rw [if_neg h]
    simp [h]

theorem expenseMonthlySpec_cons (e : BudgetEntry) (rest : List BudgetEntry) :
    expenseMonthlySpec (e :: rest) =
      (if e.entry_type = .income then 0 else monthlyEquivalent e.amount e.cadence) +
        expenseMonthlySpec rest := by
  unfold expenseMonthlySpec
  rw [List.filter_cons]
  by_cases h : e.entry_type = .income
  · rw [if_pos h]
    simp [h]
  · rw [if_neg h]
    simp [h]

theorem disposableTotals_foldl :
    ∀ (entries : List BudgetEntry) (a b : ℚ),
      entries.foldl
        (fun acc e =>
          match e.entry_type with
          | .income => (acc.1 + monthlyEquivalent e.amount e.cadence, acc.2)
          | .expense => (acc.1, acc.2 + monthlyEquivalent e.amount e.cadence))
        (a, b) =
      (a + incomeMonthlySpec entries, b + expenseMonthlySpec entries) := by
  intro entries
  induction entries with
  | nil =>
    intro a b
    simp [incomeMonthlySpec, expenseMonthlySpec]
  | cons e rest ih =>
    intro a b
    rw [List.foldl_cons]
    rw [incomeMonthlySpec_cons, expenseMonthlySpec_cons]
    cases htype : e.entry_type
    · show rest.foldl _ (a + monthlyEquivalent e.amount e.cadence, b) = _
      rw [ih]
      simp [htype]
      ring
    · show rest.foldl _ (a, b + monthlyEquivalent e.amount e.cadence) = _
      rw [ih]
      simp [htype]
      ring

theorem disposableTotals_spec (entries : List BudgetEntry) :
    disposableTotals entries = (incomeMonthlySpec entries, expenseMonthlySpec entries) := by
  unfold disposableTotals
  rw [disposableTotals_foldl]
  simp

/-- C9: `get_disposable_income` returns `monthly_income` as the 2-decimal
rounding of the cadence-normalised sum over active income entries,
`monthly_expenses` likewise over the remaining active entries, and
`monthly_disposable` as the rounding of their difference; with no active
entries all three are zero. -/
theorem get_disposable_income_totals (entries : List BudgetEntry) :
    (get_disposable_income entries).monthly_income =
      round2 (incomeMonthlySpec entries) ∧
    (get_disposable_income entries).monthly_expenses =
      round2 (expenseMonthlySpec entries) ∧
    (get_disposable_income entries).monthly_disposable =
      round2 (incomeMonthlySpec entries - expenseMonthlySpec entries) ∧
    get_disposable_income [] = ⟨0, 0, 0⟩ := by
  have h := disposableTotals_spec entries
  refine ⟨?_, ?_, ?_, ?_⟩
  · show round2 (disposableTotals entries).1 = _
    rw [h]
  · show round2 (disposableTotals entries).2 = _
    rw [h]
  · show round2 ((disposableTotals entries).1 - (disposableTotals entries).2) = _
    rw [h]
  · show (⟨round2 (disposableTotals []).1, round2 (disposableTotals []).2,
      round2 ((disposableTotals []).1 - (disposableTotals []).2)⟩ : DisposableIncome) = _
    norm_num [disposableTotals, round2, bankersRound]

/-- A Python `date`, as produced by `datetime.date()`. -/
structure PyDate where
  year : Int
  month : Int
  day : Int
deriving DecidableEq, Repr

/-- Embeds `datetime.date()`: the calendar-date part of a timestamp. -/
def dateOf (d : DateTime) : PyDate := ⟨d.year, d.month, d.day⟩

/-- Python `date` comparison (lexicographic), non-strict. -/
def dateLe (a b : PyDate) : Prop :=
  a.year < b.year ∨ (a.year = b.year ∧
    (a.month < b.month ∨ (a.month = b.month ∧ a.day ≤ b.day)))

instance (a b : PyDate) : Decidable (dateLe a b) := by unfold dateLe; infer_instance

theorem dateLe_of_dtLe {a b : DateTime} (h : dtLe a b) : dateLe (dateOf a) (dateOf b) := by
  unfold dtLe at h
  unfold dateLe dateOf
  dsimp only
  omega

/-- One calendar day forward, rolling over month and year ends; iterated to
model Python's `timedelta(days=n)` addition (time-of-day unchanged). -/
def succDay (d : DateTime) : DateTime :=
  if h : d.day < daysInMonth d.year d.month then
    { d with
      day := d.day + 1
      day_ge := by have := d.day_ge; omega
      day_le := h }
  else if h2 : d.month < 12 then
    { d with
      month := d.month + 1
      month_ge := by have := d.month_ge; omega
      month_le := h2
      day := 1
      day_ge := le_refl 1
      day_le := by have := daysInMonth_ge d.year (d.month + 1); omega }
  else
    { d with
      year := d.year + 1
      month := 1
      month_ge := le_refl 1
      month_le := by omega
      day := 1
      day_ge := le_refl 1
      day_le := by have := daysInMonth_ge (d.year + 1) 1; omega }

/-- Embeds `reference + timedelta(days=n)` for the non-negative day counts the
lister uses. -/
def addDays (d : DateTime) (n : Nat) : DateTime := succDay^[n] d

/-- ISO rendering `date.isoformat()` of a date: `YYYY-MM-DD`. -/
def isoDate (d : PyDate) : String :=
  padNum 4 d.year ++ "-" ++ padNum 2 d.month ++ "-" ++ padNum 2 d.day

/-- One entry of the list returned by `get_upcoming_items`.  The source
stores `due_date` as the ISO string `occ.date().isoformat()`; the embedding
keeps the date value and renders it with `isoDate` exactly where the string
is consumed (the sort key). -/
structure UpcomingItem where
  name : String
  amount : ℚ
  due_date : PyDate
  entry_type : String
  source : String
  source_id : Int
deriving DecidableEq, Repr

/-- The item dict appended for a budget-entry occurrence. -/
def mkBudgetItem (e : BudgetEntry) (occ : DateTime) : UpcomingItem :=
  ⟨e.name, e.amount, dateOf occ, e.entry_type.value, "budget_entry", e.id⟩

/-- The item dict appended for an unposted transaction
(`txn.description or "Unposted transaction"`: Python `or` replaces both
`None` and the empty string). -/
def mkTxnItem (t : Transaction) : UpcomingItem :=
  ⟨(match t.description with
    | none => "Unposted transaction"
    | some s => if s = "" then "Unposted transaction" else s),
    t.amount, dateOf t.transaction_date, t.transaction_type.value, "transaction", t.id⟩

/-- The per-entry walk of `get_upcoming_items`:
`while occ <= cutoff and counter < 100`, emitting an item whenever
`occ >= now`; `fuel` stands for `100 - counter`. -/
def upcomingWalkAux (e : BudgetEntry) (now cutoff : DateTime) :
    Nat → DateTime → List UpcomingItem
  | 0, _ => []
  | fuel + 1, occ =>
    if dtLe occ cutoff then
      (if dtLe now occ then [mkBudgetItem e occ] else []) ++
        upcomingWalkAux e now cutoff fuel (nextOccurrence occ e.cadence)
    else []

/-- The full walk for one entry, starting from its stored anchor with the
100-iteration cap. -/
def upcomingWalk (e : BudgetEntry) (now cutoff : DateTime) : List UpcomingItem :=
  upcomingWalkAux e now cutoff 100 e.next_occurrence

/-- The string sort key `x["due_date"]` of an item. -/
def dueKey (it : UpcomingItem) : String := isoDate it.due_date

/-- Stable insertion into a list sorted by due-date key: the new element
goes after every element whose key is not greater. -/
def insertByDue (x : UpcomingItem) : List UpcomingItem → List UpcomingItem
  | [] => [x]
  | y :: ys => if dueKey x < dueKey y then x :: y :: ys else y :: insertByDue x ys

/-- Embeds `items.sort(key=lambda x: x["due_date"])`: a stable ascending sort by
the ISO due-date string.  (A stable sort's output is unique, so insertion
sort agrees with Python's Timsort on every input.) -/
def sortByDue (items : List UpcomingItem) : List UpcomingItem :=
  items.foldl (fun acc x => insertByDue x acc) []

/-- The item list of `get_upcoming_items` before the final sort: the
budget-entry walk items in entry order, then the unposted transactions
whose date lies in `[now, cutoff]`. -/
def collectUpcoming (entries : List BudgetEntry) (txns : List Transaction)
    (days : Nat) (reference : DateTime) : List UpcomingItem :=
  (entries.foldl
      (fun acc e => acc ++ upcomingWalk e reference (addDays reference days)) []) ++
    ((txns.filter fun t =>
        decide (t.is_posted = false ∧ dtLe reference t.transaction_date ∧
          dtLe t.transaction_date (addDays reference days))).map mkTxnItem)

/-- Embeds `get_upcoming_items(db, user_id, entity_id, days, reference)`. -/
def get_upcoming_items (entries : List BudgetEntry) (txns : List Transaction)
    (days : Nat) (reference : DateTime) : List UpcomingItem :=
  sortByDue (collectUpcoming entries txns days reference)

theorem mem_insertByDue (a x : UpcomingItem) :
    ∀ l : List UpcomingItem, a ∈ insertByDue x l ↔ a = x ∨ a ∈ l := by
  intro l
  induction l with
  | nil => simp [insertByDue]
  | cons y ys ih =>
    unfold insertByDue
    by_cases hc : dueKey x < dueKey y
    · rw [if_pos hc]
      simp
    · rw [if_neg hc]
      simp only [List.mem_cons, ih]
      tauto

theorem mem_sortByDue_loop (a : UpcomingItem) :
    ∀ (l acc : List UpcomingItem),
      a ∈ l.foldl (fun acc x => insertByDue x acc) acc ↔ a ∈ acc ∨ a ∈ l := by
  intro l
  induction l with
  | nil => intro acc; simp
  | cons x xs ih =>
    intro acc
    rw [List.foldl_cons, ih, mem_insertByDue]
    simp only [List.mem_cons]
    tauto

theorem mem_sortByDue (a : UpcomingItem) (l : List UpcomingItem) :
    a ∈ sortByDue l ↔ a ∈ l := by
  unfold sortByDue
  rw [mem_sortByDue_loop]
  simp

theorem upcomingWalkAux_mem (e : BudgetEntry) (now cutoff : DateTime) :
    ∀ (fuel : Nat) (occ : DateTime) (a : UpcomingItem),
      a ∈ upcomingWalkAux e now cutoff fuel occ →
      ∃ o : DateTime, dtLe now o ∧ dtLe o cutoff ∧ a = mkBudgetItem e o := by
  intro fuel
  induction fuel with
  | zero => intro occ a ha; simp [upcomingWalkAux] at ha
  | succ fuel ih =>
    intro occ a ha
    unfold upcomingWalkAux at ha
    by_cases hc : dtLe occ cutoff
    · rw [if_pos hc, List.mem_append] at ha
      rcases ha with ha | ha
      · by_cases hn : dtLe now occ
        · rw [if_pos hn, List.mem_singleton] at ha
          exact ⟨occ, hn, hc, ha⟩
        · rw [if_neg hn] at ha
          simp at ha
      · exact ih _ a ha
    · rw [if_neg hc] at ha
      simp at ha

theorem mem_budget_foldl (now cutoff : DateTime) (a : UpcomingItem) :
    ∀ (entries : List BudgetEntry) (acc : List UpcomingItem),
      a ∈ entries.foldl (fun acc e => acc ++ upcomingWalk e now cutoff) acc →
      a ∈ acc ∨ ∃ e, e ∈ entries ∧ a ∈ upcomingWalk e now cutoff := by
  intro entries
  induction entries with
  | nil => intro acc ha; exact .inl ha
  | cons e es ih =>
    intro acc ha
    rw [List.foldl_cons] at ha
    rcases ih _ ha with h | ⟨e', he', hw⟩
    · rw [List.mem_append] at h
      rcases h with h | h
      · exact .inl h
      · exact .inr ⟨e, List.mem_cons_self e es, h⟩
    · exact .inr ⟨e', List.mem_cons_of_mem _ he', hw⟩

/-- C6: every item returned by `get_upcoming_items` is due no earlier than
the reference timestamp's calendar date and no later than the calendar date
of `reference + days` days; the window is inclusive at both the start and
the cutoff. -/
theorem get_upcoming_items_window
    (entries : List BudgetEntry) (txns : List Transaction) (days : Nat)
    (reference : DateTime) (it : UpcomingItem)
    (hmem : it ∈ get_upcoming_items entries txns days reference) :
    dateLe (dateOf reference) it.due_date ∧
    dateLe it.due_date (dateOf (addDays reference days)) := by
  unfold get_upcoming_items at hmem
  rw [mem_sortByDue] at hmem
  unfold collectUpcoming at hmem
  rw [List.mem_append] at hmem
  rcases hmem with hb | ht
  · rcases mem_budget_foldl _ _ _ _ _ hb with h | ⟨e, _, hw⟩
    · simp at h
    · unfold upcomingWalk at hw
      obtain ⟨o, h1, h2, rfl⟩ := upcomingWalkAux_mem _ _ _ _ _ _ hw
      exact ⟨dateLe_of_dtLe h1, dateLe_of_dtLe h2⟩
  · rw [List.mem_map] at ht
    obtain ⟨t, htf, rfl⟩ := ht
    rw [List.mem_filter] at htf
    have hcond := of_decide_eq_true htf.2
    exact ⟨dateLe_of_dtLe hcond.2.1, dateLe_of_dtLe hcond.2.2⟩

/-- Concrete monthly expense entry anchored 2025-03-20 for witnesses. -/
def sampleEntry : BudgetEntry :=
  ⟨7, "Rent", .expense, 1200, .monthly,
    ⟨2025, 3, 20, 0, 0, 0, 0, by decide, by decide, by decide, by decide,
      by decide, by decide, by decide, by decide⟩⟩

set_option maxRecDepth 16000 in
theorem get_upcoming_items_window_witness :
    mkBudgetItem sampleEntry sampleEntry.next_occurrence ∈
      get_upcoming_items [sampleEntry] [] 30 sampleRef ∧
    (dateLe (dateOf sampleRef)
        (mkBudgetItem sampleEntry sampleEntry.next_occurrence).due_date ∧
      dateLe (mkBudgetItem sampleEntry sampleEntry.next_occurrence).due_date
        (dateOf (addDays sampleRef 30))) :=
  ⟨by decide,
    get_upcoming_items_window [sampleEntry] [] 30 sampleRef
      (mkBudgetItem sampleEntry sampleEntry.next_occurrence) (by decide)⟩

theorem dtLe_of_dtLt {a b : DateTime} (h : dtLt a b) : dtLe a b := by
  unfold dtLt at h
  unfold dtLe
  omega

theorem dtLt_of_not_dtLe {a b : DateTime} (h : ¬ dtLe a b) : dtLt b a := by
  unfold dtLe at h
  unfold dtLt
  omega

theorem dtLt_of_dtLt_of_dtLe {a b c : DateTime} (h1 : dtLt a b) (h2 : dtLe b c) :
    dtLt a c := by
  unfold dtLe at h2
  unfold dtLt at *
  omega

/-- The occurrence reached after `n` applications of `_next_occurrence`
from an anchor. -/
def occIter (c : RecurrenceFrequency) (anchor : DateTime) (n : Nat) : DateTime :=
  (fun d => nextOccurrence d c)^[n] anchor

theorem occIter_zero (c : RecurrenceFrequency) (anchor : DateTime) :
    occIter c anchor 0 = anchor := rfl

theorem occIter_succ (c : RecurrenceFrequency) (anchor : DateTime) (n : Nat) :
    occIter c anchor (n + 1) = occIter c (nextOccurrence anchor c) n :=
  Function.iterate_succ_apply (fun d => nextOccurrence d c) n anchor

theorem dtLe_occIter (c : RecurrenceFrequency) (anchor : DateTime) :
    ∀ n : Nat, dtLe anchor (occIter c anchor n) := by
  intro n
  induction n with
  | zero => exact dtLe_refl anchor
  | succ n ih =>
    have hstep : dtLt (occIter c anchor n) (occIter c anchor (n + 1)) := by
      rw [show occIter c anchor (n + 1) = nextOccurrence (occIter c anchor n) c from
        Function.iterate_succ_apply' (fun d => nextOccurrence d c) n anchor]
      exact dtLt_addMonths _ _ (cadenceMonths_ge_one c)
    exact dtLe_trans ih (dtLe_of_dtLt hstep)

theorem upcomingWalkAux_spec (e : BudgetEntry) (now cutoff : DateTime) :
    ∀ (fuel : Nat) (occ : DateTime),
      upcomingWalkAux e now cutoff fuel occ =
        (((List.range fuel).map (occIter e.cadence occ)).filter
          (fun o => decide (dtLe now o ∧ dtLe o cutoff))).map (mkBudgetItem e) := by
  intro fuel
  induction fuel with
  | zero => intro occ; rfl
  | succ fuel ih =>
    intro occ
    have hmap : (List.range (fuel + 1)).map (occIter e.cadence occ) =
        occ :: (List.range fuel).map
          (occIter e.cadence (nextOccurrence occ e.cadence)) := by
      rw [List.range_succ_eq_map, List.map_cons, List.map_map]
      rw [show occIter e.cadence occ ∘ Nat.succ =
        occIter e.cadence (nextOccurrence occ e.cadence) from
          funext fun n => occIter_succ e.cadence occ n]
      rfl
    rw [hmap, List.filter_cons]
    show (if dtLe occ cutoff then
        (if dtLe now occ then [mkBudgetItem e occ] else []) ++
          upcomingWalkAux e now cutoff fuel (nextOccurrence occ e.cadence)
      else []) = _
    by_cases hc : dtLe occ cutoff
    · rw [if_pos hc]
      by_cases hn : dtLe now occ
      · rw [if_pos hn, if_pos (decide_eq_true ⟨hn, hc⟩), List.map_cons, ih]
        rfl
      · rw [if_neg hn,
          if_neg (by simp only [decide_eq_true_eq]; exact fun hcon => hn hcon.1),
          ih]
        rfl
    · rw [if_neg hc]
      have hlt := dtLt_of_not_dtLe hc
      rw [if_neg (show ¬ decide (dtLe now occ ∧ dtLe occ cutoff) = true from by
        simp only [decide_eq_true_eq]
        exact fun hcon => hc hcon.2)]
      have hfil : ((List.range fuel).map
          (occIter e.cadence (nextOccurrence occ e.cadence))).filter
            (fun o => decide (dtLe now o ∧ dtLe o cutoff)) = [] := by
        rw [List.filter_eq_nil_iff]
        intro a ha
        simp only [decide_eq_true_eq, not_and]
        intro _
        obtain ⟨n, _, rfl⟩ := List.mem_map.mp ha
        have ha' : dtLe occ (occIter e.cadence (nextOccurrence occ e.cadence) n) :=
          dtLe_trans
            (dtLe_of_dtLt (dtLt_addMonths occ _ (cadenceMonths_ge_one e.cadence)))
            (dtLe_occIter _ _ n)
        exact fun hle => not_dtLt_of_dtLe hle (dtLt_of_dtLt_of_dtLe hlt ha')
      rw [hfil]
      rfl

/-- C7: for each active budget entry, `get_upcoming_items` walks forward
from the entry's stored `next_occurrence` via `_next_occurrence`, emitting
one item per occurrence that is `>= reference` and `<= cutoff`, with the
walk capped at 100 iterations per entry; the result is assembled from these
per-entry item lists followed by the window-filtered unposted transactions
and then sorted. -/
theorem get_upcoming_items_walks_anchor
    (entries : List BudgetEntry) (txns : List Transaction) (days : Nat)
    (reference : DateTime) :
    (∀ (e : BudgetEntry) (now cutoff : DateTime),
      upcomingWalk e now cutoff =
        (((List.range 100).map (occIter e.cadence e.next_occurrence)).filter
          (fun o => decide (dtLe now o ∧ dtLe o cutoff))).map (mkBudgetItem e)) ∧
    get_upcoming_items entries txns days reference =
      sortByDue
        ((entries.foldl
            (fun acc e =>
              acc ++
                (((List.range 100).map (occIter e.cadence e.next_occurrence)).filter
                  (fun o =>
                    decide (dtLe reference o ∧ dtLe o (addDays reference days)))).map
                  (mkBudgetItem e))
            []) ++
          ((txns.filter fun t =>
              decide (t.is_posted = false ∧ dtLe reference t.transaction_date ∧
                dtLe t.transaction_date (addDays reference days))).map mkTxnItem)) := by
  have hwalk : ∀ (e : BudgetEntry) (now cutoff : DateTime),
      upcomingWalk e now cutoff =
        (((List.range 100).map (occIter e.cadence e.next_occurrence)).filter
          (fun o => decide (dtLe now o ∧ dtLe o cutoff))).map (mkBudgetItem e) :=
    fun e now cutoff => upcomingWalkAux_spec e now cutoff 100 e.next_occurrence
  refine ⟨hwalk, ?_⟩
  unfold get_upcoming_items collectUpcoming
  rw [show (fun acc e => acc ++ upcomingWalk e reference (addDays reference days)) =
    (fun (acc : List UpcomingItem) (e : BudgetEntry) =>
      acc ++
        (((List.range 100).map (occIter e.cadence e.next_occurrence)).filter
          (fun o => decide (dtLe reference o ∧ dtLe o (addDays reference days)))).map
          (mkBudgetItem e)) from
    funext fun acc => funext fun e => by rw [hwalk]]

theorem insertByDue_pairwise (x : UpcomingItem) :
    ∀ l : List UpcomingItem, l.Pairwise (fun a b => dueKey a ≤ dueKey b) →
      (insertByDue x l).Pairwise (fun a b => dueKey a ≤ dueKey b) := by
  intro l
  induction l with
  | nil => intro _; exact List.pairwise_singleton _ x
  | cons y ys ih =>
    intro hp
    unfold insertByDue
    by_cases hc : dueKey x < dueKey y
    · rw [if_pos hc]
      refine List.Pairwise.cons ?_ hp
      intro b hb
      rcases List.mem_cons.mp hb with rfl | hb
      · exact le_of_lt hc
      · exact le_trans (le_of_lt hc) (List.rel_of_pairwise_cons hp hb)
    · rw [if_neg hc]
      refine List.Pairwise.cons ?_ (ih hp.of_cons)
      intro b hb
      rcases (mem_insertByDue b x ys).mp hb with rfl | hb
      · exact not_lt.mp hc
      · exact List.rel_of_pairwise_cons hp hb

theorem insertByDue_filter (x : UpcomingItem) (d : PyDate) :
    ∀ l : List UpcomingItem, l.Pairwise (fun a b => dueKey a ≤ dueKey b) →
      (insertByDue x l).filter (fun it => decide (it.due_date = d)) =
        if x.due_date = d then
          l.filter (fun it => decide (it.due_date = d)) ++ [x]
        else l.filter (fun it => decide (it.due_date = d)) := by
  intro l
  induction l with
  | nil =>
    intro _
    by_cases hx : x.due_date = d
    · rw [if_pos hx]
      simp [insertByDue, hx]
    · rw [if_neg hx]
      simp [insertByDue, hx]
  | cons y ys ih =>
    intro hp
    unfold insertByDue
    by_cases hc : dueKey x < dueKey y
    · rw [if_pos hc]
      by_cases hx : x.due_date = d
      · rw [if_pos hx, List.filter_cons, if_pos (decide_eq_true hx)]
        have hnone : (y :: ys).filter (fun it => decide (it.due_date = d)) = [] := by
          rw [List.filter_eq_nil_iff]
          intro a ha
          simp only [decide_eq_true_eq]
          intro had
          have hya : dueKey y ≤ dueKey a := by
            rcases List.mem_cons.mp ha with rfl | ha'
            · exact le_refl _
            · exact List.rel_of_pairwise_cons hp ha'
          have hkey : dueKey a = dueKey x := by
            unfold dueKey
            rw [had, hx]
          have : dueKey x < dueKey x := lt_of_lt_of_le hc (hya.trans_eq hkey)
          exact absurd this (lt_irrefl _)
        rw [hnone]
        rfl
      · rw [if_neg hx, List.filter_cons,
          if_neg (show ¬ decide (x.due_date = d) = true from by simp [hx])]
    · rw [if_neg hc, List.filter_cons, ih hp.of_cons]
      by_cases hx : x.due_date = d <;> by_cases hy : y.due_date = d <;>
        simp [hx, hy]

theorem sortByDue_loop_invariant (d : PyDate) :
    ∀ (l acc : List UpcomingItem),
      acc.Pairwise (fun a b => dueKey a ≤ dueKey b) →
      (l.foldl (fun acc x => insertByDue x acc) acc).Pairwise
        (fun a b => dueKey a ≤ dueKey b) ∧
      (l.foldl (fun acc x => insertByDue x acc) acc).filter
          (fun it => decide (it.due_date = d)) =
        acc.filter (fun it => decide (it.due_date = d)) ++
          l.filter (fun it => decide (it.due_date = d)) := by
  intro l
  induction l with
  | nil => intro acc hacc; exact ⟨hacc, by simp⟩
  | cons x xs ih =>
    intro acc hacc
    rw [List.foldl_cons]
    obtain ⟨hs, hf⟩ := ih (insertByDue x acc) (insertByDue_pairwise x acc hacc)
    refine ⟨hs, ?_⟩
    rw [hf, insertByDue_filter x d acc hacc, List.filter_cons]
    by_cases hx : x.due_date = d
    · simp [hx]
    · simp [hx]

/-- C8: the list returned by `get_upcoming_items` is sorted ascending in the
lexicographic order of the ISO due-date string, and the sort is stable: for
every date, the items bearing it keep the exact order in which they were
collected (all budget-entry items for a day, in entry then occurrence order,
before same-day transaction items). -/
theorem get_upcoming_items_sorted_stable
    (entries : List BudgetEntry) (txns : List Transaction) (days : Nat)
    (reference : DateTime) :
    (get_upcoming_items entries txns days reference).Pairwise
      (fun a b => dueKey a ≤ dueKey b) ∧
    ∀ d : PyDate,
      (get_upcoming_items entries txns days reference).filter
          (fun it => decide (it.due_date = d)) =
        (collectUpcoming entries txns days reference).filter
          (fun it => decide (it.due_date = d)) := by
  constructor
  · unfold get_upcoming_items sortByDue
    exact (sortByDue_loop_invariant ⟨0, 0, 0⟩
      (collectUpcoming entries txns days reference) [] List.Pairwise.nil).1
  · intro d
    unfold get_upcoming_items sortByDue
    rw [(sortByDue_loop_invariant d
      (collectUpcoming entries txns days reference) [] List.Pairwise.nil).2]
    simp

theorem monthsSE_occIter (c : RecurrenceFrequency) (occ : DateTime) :
    ∀ n : Nat, monthsSE occ + n ≤ monthsSE (occIter c occ n) := by
  intro n
  induction n with
  | zero => simp [occIter_zero]
  | succ n ih =>
    have hs : occIter c occ (n + 1) = nextOccurrence (occIter c occ n) c :=
      Function.iterate_succ_apply' (fun d => nextOccurrence d c) n occ
    rw [hs]
    unfold nextOccurrence
    rw [monthsSE_addMonths]
    have := cadenceMonths_ge_one c
    omega

theorem catchUp_first_exit_aux (c : RecurrenceFrequency) (ps : DateTime) :
    ∀ (k : Nat) (occ : DateTime), (monthsSE ps + 1 - monthsSE occ).toNat ≤ k →
      ∃ n : Nat, catchUp c ps occ = occIter c occ n ∧
        ¬ dtLt (occIter c occ n) ps ∧
        ∀ m : Nat, m < n → dtLt (occIter c occ m) ps := by
  intro k
  induction k with
  | zero =>
    intro occ hk
    by_cases h : dtLt occ ps
    · exfalso
      have := monthsSE_le_of_dtLt h
      omega
    · refine ⟨0, ?_, h, fun m hm => absurd hm (Nat.not_lt_zero m)⟩
      rw [catchUp.eq_def, if_neg h]
      rfl
  | succ k ihk =>
    intro occ hk
    by_cases h : dtLt occ ps
    · have hstep : (monthsSE ps + 1 - monthsSE (nextOccurrence occ c)).toNat ≤ k := by
        have h1 := monthsSE_le_of_dtLt h
        have h2 := monthsSE_addMonths occ (cadenceMonths c)
        have h3 := cadenceMonths_ge_one c
        unfold nextOccurrence
        omega
      obtain ⟨n, he, hn, hm⟩ := ihk (nextOccurrence occ c) hstep
      refine ⟨n + 1, ?_, ?_, ?_⟩
      · rw [catchUp.eq_def, if_pos h, he, ← occIter_succ]
      · rw [occIter_succ]
        exact hn
      · intro m hm'
        cases m with
        | zero => exact h
        | succ m =>
          rw [occIter_succ]
          exact hm m (Nat.lt_of_succ_lt_succ hm')
    · refine ⟨0, ?_, h, fun m hm => absurd hm (Nat.not_lt_zero m)⟩
      rw [catchUp.eq_def, if_neg h]
      rfl

/-- C10: the projector's two occurrence loops terminate for every anchor,
period bound and cadence value (the unrecognized fallback included), because
`_add_months` with a positive month count returns a strictly later
timestamp: the uncapped catch-up loop computes, in finitely many steps, the
first walk position not before `period_start`, and the in-period
accumulation guard fails after finitely many further steps (bounded by the
month distance to the period end, hence unbounded in the anchor's distance
but always finite). -/
theorem projector_loops_terminate :
    (∀ (dt : DateTime) (k : Int), 1 ≤ k → dtLt dt (addMonths dt k)) ∧
    (∀ (c : RecurrenceFrequency) (ps occ : DateTime), ∃ n : Nat,
      catchUp c ps occ = occIter c occ n ∧ ¬ dtLt (occIter c occ n) ps ∧
      ∀ m : Nat, m < n → dtLt (occIter c occ m) ps) ∧
    (∀ (c : RecurrenceFrequency) (ps pe occ : DateTime), ∃ n : Nat,
      ¬ (dtLe ps (occIter c occ n) ∧ dtLt (occIter c occ n) pe)) := by
  refine ⟨dtLt_addMonths, ?_, ?_⟩
  · intro c ps occ
    exact catchUp_first_exit_aux c ps (monthsSE ps + 1 - monthsSE occ).toNat occ le_rfl
  · intro c ps pe occ
    refine ⟨(monthsSE pe + 1 - monthsSE occ).toNat, ?_⟩
    rintro ⟨h1, h2⟩
    have hiter := monthsSE_occIter c occ (monthsSE pe + 1 - monthsSE occ).toNat
    have hle := monthsSE_le_of_dtLt h2
    omega

theorem projector_loops_terminate_witness :
    dtLt sampleRef (addMonths sampleRef 3) :=
  projector_loops_terminate.1 sampleRef 3 (by decide)
